import Mathlib

/-!
Verification of the libdns/cloudns provider core: the record codec
(`fromLibdnsRecord` / `toLibdnsRecord`), TTL quantization (`ttlRounder`),
the RRset reconciliation engine (`createUpdateOperations` /
`makeOperationList`), the orchestration loops of `SetRecords` and
`DeleteRecords`, and the retry helper (`RetryWithBackoff`).

Modelling conventions:
- Go strings are modelled as `List Char` (`GoStr`); every string operation
  the code uses (`strconv.Atoi`, `strconv.Itoa`, `strings.SplitN`,
  `strings.TrimPrefix`, `netip.ParseAddr`, `netip.Addr.String`) is embedded
  as an executable Lean function over `GoStr`.
- `time.Duration` values that the code ever inspects are whole seconds, so
  durations are modelled as `Int` counts of seconds (`ttlRounder` consumes
  `int(ttl.Seconds())`, which is the identity on whole-second durations).
- Go `uint8`/`uint16` fields are modelled as `Nat`: the code only copies and
  compares them, never does arithmetic, so wrap-around is unobservable.
- Fallible Go functions return `Option`/`Except`; errors are structured
  values carrying exactly the data the Go error message interpolates.
- Go map iteration order is unspecified; maps are modelled as association
  lists in key-insertion order (a deterministic refinement).  Every theorem
  proved below is insensitive to that order.
-/

namespace Cloudns

/-- Go strings, modelled as lists of characters. -/
abbrev GoStr := List Char

/-- Shorthand turning a Lean string literal into a `GoStr`. -/
def gs (s : String) : GoStr := s.toList

/-- Whether a character is an ASCII decimal digit (Go `'0' <= c && c <= '9'`). -/
def isDigitCh (c : Char) : Bool := 48 ≤ c.toNat && c.toNat ≤ 57

/-- Numeric value of a decimal digit character. -/
def digitVal (c : Char) : Nat := c.toNat - 48

/-- `strconv.Atoi`: optional sign, one or more decimal digits, 64-bit range
check.  Returns `none` exactly when Go returns a non-nil error. -/
def goAtoi (s : GoStr) : Option Int :=
  let core : Int → GoStr → Option Int := fun sign digits =>
    if digits = [] then none
    else if digits.all isDigitCh then
      let v : Nat := digits.foldl (fun a c => a * 10 + digitVal c) 0
      let n : Int := sign * (v : Int)
      if -9223372036854775808 ≤ n ∧ n ≤ 9223372036854775807 then some n else none
    else none
  match s with
  | [] => none
  | '+' :: rest => core 1 rest
  | '-' :: rest => core (-1) rest
  | _ => core 1 s

/-- `strconv.Itoa` on a natural number (via Lean's decimal printer, which
agrees with Go's). -/
def goItoaNat (n : Nat) : GoStr := (Nat.repr n).toList

/-- `strconv.Itoa` on an `int`. -/
def goItoa (n : Int) : GoStr := (Int.repr n).toList

/-- Split a string at every `'.'` (Go `strings.Split(s, ".")`): always
returns at least one (possibly empty) field. -/
def splitDots : GoStr → List GoStr
  | [] => [[]]
  | c :: rest =>
    if c = '.' then [] :: splitDots rest
    else
      match splitDots rest with
      | g :: groups => (c :: g) :: groups
      | [] => [[c]]

/-- Join fields with `'.'` (Go `strings.Join(fields, ".")`). -/
def joinDots : List GoStr → GoStr
  | [] => []
  | [f] => f
  | f :: rest => f ++ '.' :: joinDots rest

/-- Go `strings.SplitN(s, ".", 3)`: at most three fields, the last one
containing the unsplit remainder. -/
def goSplitN3 (s : GoStr) : List GoStr :=
  match splitDots s with
  | a :: b :: c :: rest => if rest = [] then [a, b, c] else [a, b, joinDots (c :: rest)]
  | parts => parts

/-- Go `strings.TrimPrefix(s, "_")`. -/
def trimUnderscore (s : GoStr) : GoStr :=
  match s with
  | '_' :: rest => rest
  | s => s

/-- The ascending list of TTL steps the Go loop iterates over (the final
accepted value 2592000 is the fallback, not a loop element). -/
def ttlLoopSteps : List Int :=
  [60, 300, 900, 1800, 3600, 21600, 43200, 86400, 172800, 259200, 604800, 1209600]

/-- The loop body of `ttlRounder`: first step `>=` the input, else the
fallback month. -/
def ttlLoop (t : Int) : List Int → Int
  | [] => 2592000
  | v :: rest => if t ≤ v then v else ttlLoop t rest

/-- `ttlRounder` from `utils.go`: rounds a TTL in whole seconds up to the
next accepted ClouDNS value. -/
def ttlRounder (t : Int) : Int := ttlLoop t ttlLoopSteps

/-- The full accepted TTL set, as stated in the documentation comment of
`ttlRounder`. -/
def validTTLs : List Int :=
  [60, 300, 900, 1800, 3600, 21600, 43200, 86400, 172800, 259200, 604800, 1209600, 2592000]

/-! ### `net/netip` model: `ParseAddr` and `Addr.String`

`netip.Addr` is either a 4-byte IPv4 address or a 16-byte IPv6 address
(eight 16-bit groups) with an optional zone.  The parser follows Go's
`parseIPv4`/`parseIPv6` (leading-zero rejection for IPv4 octets, `::`
ellipsis handling, embedded IPv4 trailers, non-empty zones); the printer
follows Go's `Addr.String` (dotted quad, RFC 5952 zero-run compression,
`::ffff:a.b.c.d` for 4-in-6 addresses). -/

/-- Whether a character is an ASCII hexadecimal digit. -/
def isHexDigitCh (c : Char) : Bool :=
  isDigitCh c || (97 ≤ c.toNat && c.toNat ≤ 102) || (65 ≤ c.toNat && c.toNat ≤ 70)

/-- Numeric value of a hexadecimal digit character. -/
def hexVal (c : Char) : Nat :=
  if isDigitCh c then c.toNat - 48
  else if 97 ≤ c.toNat then c.toNat - 87
  else c.toNat - 55

/-- A parsed IP address: IPv4 octets, or eight 16-bit IPv6 groups plus zone. -/
inductive IPAddr where
  | v4 (a b c d : Nat)
  | v6 (groups : List Nat) (zone : GoStr)
  deriving DecidableEq

/-- Go `netip.Addr.Is4` (true only for genuine 4-byte addresses). -/
def IPAddr.is4 : IPAddr → Bool
  | .v4 _ _ _ _ => true
  | .v6 _ _ => false

/-- One decimal IPv4 octet: digits only, no leading zero, value at most 255
(Go `parseIPv4` field rules). -/
def parseOctet (f : GoStr) : Option Nat :=
  if f = [] then none
  else if f.all isDigitCh then
    if 1 < f.length ∧ f.head? = some '0' then none
    else
      let v := f.foldl (fun a c => a * 10 + digitVal c) 0
      if v ≤ 255 then some v else none
  else none

/-- Go `parseIPv4`: exactly four dot-separated octets. -/
def parseIPv4 (s : GoStr) : Option IPAddr :=
  match splitDots s with
  | [a, b, c, d] => do
    let av ← parseOctet a
    let bv ← parseOctet b
    let cv ← parseOctet c
    let dv ← parseOctet d
    some (.v4 av bv cv dv)
  | _ => none

/-- Value of a string of hexadecimal digits. -/
def hexFieldVal (digits : GoStr) : Nat :=
  digits.foldl (fun a c => a * 16 + hexVal c) 0

/-- Expansion of the `::` ellipsis once all explicit groups are read: with
eight groups an ellipsis is illegal, with fewer an ellipsis is required and
zero groups are inserted at its recorded position (Go `parseIPv6` epilogue). -/
def finishV6 (ell : Option Nat) (acc : List Nat) : Option (List Nat) :=
  if acc.length = 8 then
    match ell with
    | none => some acc
    | some _ => none
  else
    match ell with
    | none => none
    | some e => some (acc.take e ++ List.replicate (8 - acc.length) 0 ++ acc.drop e)

/-- The field-reading loop of Go `parseIPv6`: reads hex groups separated by
colons, at most one `::`, and an optional embedded IPv4 trailer standing for
the final two groups. -/
def parseV6Fields (fuel : Nat) (s : GoStr) (ell : Option Nat) (acc : List Nat) :
    Option (List Nat) :=
  match fuel with
  | 0 => none
  | fuel + 1 =>
    if acc.length = 8 then
      if s = [] then finishV6 ell acc else none
    else
      let digits := s.takeWhile isHexDigitCh
      let rest := s.dropWhile isHexDigitCh
      if digits = [] then none
      else if 65535 < hexFieldVal digits then none
      else
        match rest with
        | [] => finishV6 ell (acc ++ [hexFieldVal digits])
        | '.' :: _ =>
          if ell = none ∧ acc.length ≠ 6 then none
          else if 8 < acc.length + 2 then none
          else
            match parseIPv4 s with
            | some (.v4 a b c d) => finishV6 ell (acc ++ [a * 256 + b, c * 256 + d])
            | _ => none
        | ':' :: [] => none
        | ':' :: ':' :: rest2 =>
          if ell.isSome then none
          else
            let acc2 := acc ++ [hexFieldVal digits]
            if rest2 = [] then finishV6 (some acc2.length) acc2
            else parseV6Fields fuel rest2 (some acc2.length) acc2
        | ':' :: rest2 => parseV6Fields fuel rest2 ell (acc ++ [hexFieldVal digits])
        | _ => none

/-- Go `parseIPv6` without the zone suffix. -/
def parseV6Core (s : GoStr) : Option (List Nat) :=
  match s with
  | ':' :: ':' :: rest =>
    if rest = [] then some (List.replicate 8 0) else parseV6Fields 10 rest (some 0) []
  | _ => parseV6Fields 10 s none []

/-- Go `parseIPv6`: optional `%zone` suffix, which must be non-empty. -/
def parseIPv6 (s : GoStr) : Option IPAddr :=
  let addrPart := s.takeWhile (· ≠ '%')
  let zonePart := s.dropWhile (· ≠ '%')
  match zonePart with
  | [] => (parseV6Core addrPart).map (fun g => .v6 g [])
  | _ :: [] => none
  | _ :: zone => (parseV6Core addrPart).map (fun g => .v6 g zone)

/-- The dispatch scan of Go `netip.ParseAddr`: the first of `.`, `:`, `%`
decides the format. -/
def firstSpecial : GoStr → Option Char
  | [] => none
  | c :: rest => if c = '.' ∨ c = ':' ∨ c = '%' then some c else firstSpecial rest

/-- Go `netip.ParseAddr`. -/
def parseAddr (s : GoStr) : Option IPAddr :=
  match firstSpecial s with
  | some '.' => parseIPv4 s
  | some ':' => parseIPv6 s
  | _ => none

/-- Decimal dotted-quad rendering. -/
def ipv4Str (a b c d : Nat) : GoStr :=
  goItoaNat a ++ '.' :: goItoaNat b ++ '.' :: goItoaNat c ++ '.' :: goItoaNat d

/-- Lowercase hexadecimal digit character. -/
def hexDigitCh (n : Nat) : Char :=
  if n < 10 then Char.ofNat (48 + n) else Char.ofNat (87 + n)

/-- Hexadecimal digits of `n`, most significant first, no leading zeros
(empty for zero; fuel-structured for kernel reducibility). -/
def hexStrAux : Nat → Nat → GoStr
  | 0, _ => []
  | _, 0 => []
  | fuel + 1, n => hexStrAux fuel (n / 16) ++ [hexDigitCh (n % 16)]

/-- Minimal lowercase hexadecimal rendering of one 16-bit group. -/
def hexGroupStr (n : Nat) : GoStr :=
  if n = 0 then ['0'] else hexStrAux 5 n

/-- Length of the zero-group run starting at the head. -/
def runLen : List Nat → Nat
  | [] => 0
  | g :: rest => if g = 0 then runLen rest + 1 else 0

/-- Leftmost-longest run of at least two zero groups, as `(start, length)`
(Go `Addr.String` keeps an earlier run unless a later one is strictly
longer). -/
def bestZeroRunAux : List Nat → Nat → Option (Nat × Nat)
  | [], _ => none
  | g :: rest, i =>
    let tailBest := bestZeroRunAux rest (i + 1)
    let hereLen := runLen (g :: rest)
    if g = 0 ∧ 2 ≤ hereLen then
      match tailBest with
      | some (s, l) => if hereLen < l then some (s, l) else some (i, hereLen)
      | none => some (i, hereLen)
    else tailBest

/-- Leftmost-longest zero run of a group list. -/
def bestZeroRun (groups : List Nat) : Option (Nat × Nat) :=
  bestZeroRunAux groups 0

/-- Join group renderings with colons. -/
def intercalateColon : List GoStr → GoStr
  | [] => []
  | [g] => g
  | g :: rest => g ++ ':' :: intercalateColon rest

/-- RFC 5952 rendering of eight groups: compress the leftmost-longest zero
run of length at least two with `::`. -/
def rfc5952 (groups : List Nat) : GoStr :=
  match bestZeroRun groups with
  | none => intercalateColon (groups.map hexGroupStr)
  | some (s, l) =>
    intercalateColon ((groups.take s).map hexGroupStr) ++
      ':' :: ':' :: intercalateColon ((groups.drop (s + l)).map hexGroupStr)

/-- Go `netip.Addr.String`. -/
def IPAddr.toGoString : IPAddr → GoStr
  | .v4 a b c d => ipv4Str a b c d
  | .v6 groups zone =>
    let base :=
      match groups with
      | [0, 0, 0, 0, 0, 65535, hi, lo] =>
        gs "::ffff:" ++ ipv4Str (hi / 256) (hi % 256) (lo / 256) (lo % 256)
      | gps => rfc5952 gps
    base ++ (if zone = [] then [] else '%' :: zone)

/-! ### The `libdns` record model

`libdns.Record` is an interface with an `RR()` method; the concrete types
used by this provider are `Address`, `CAA`, `CNAME`, `MX`, `NS`, `SRV`,
`TXT` and the flat `RR` struct itself.  TTLs are whole seconds (`Int`). -/

/-- The flat `libdns.RR` struct. -/
structure RRrec where
  name : GoStr
  ttl : Int
  type_ : GoStr
  data : GoStr
  deriving DecidableEq

/-- Go `fmt` `%q` escaping of one character (ASCII printable subset; the
claims never inspect quoted data beyond equality of plain strings). -/
def quoteCh (c : Char) : GoStr :=
  if c = '"' then ['\\', '"']
  else if c = '\\' then ['\\', '\\']
  else if 32 ≤ c.toNat ∧ c.toNat ≤ 126 then [c]
  else ['\\', 'x', hexDigitCh (c.toNat / 16 % 16), hexDigitCh (c.toNat % 16)]

/-- Go `fmt.Sprintf("%q", s)` for the strings that occur in CAA values. -/
def goQuote (s : GoStr) : GoStr :=
  '"' :: s.flatMap quoteCh ++ ['"']

/-- The concrete `libdns.Record` implementations the provider handles. -/
inductive LibdnsRecord where
  | address (name : GoStr) (ttl : Int) (ip : IPAddr)
  | caa (name : GoStr) (ttl : Int) (flags : Nat) (tag : GoStr) (value : GoStr)
  | cname (name : GoStr) (ttl : Int) (target : GoStr)
  | mx (name : GoStr) (ttl : Int) (preference : Nat) (target : GoStr)
  | ns (name : GoStr) (ttl : Int) (target : GoStr)
  | srv (service transport name : GoStr) (ttl : Int) (priority weight port : Nat)
      (target : GoStr)
  | txt (name : GoStr) (ttl : Int) (text : GoStr)
  | plain (rr : RRrec)
  deriving DecidableEq

/-- The `RR()` method of each `libdns` record type: the canonical
(name, TTL, type, data) quadruple. -/
def LibdnsRecord.RR : LibdnsRecord → RRrec
  | .address name ttl ip =>
    ⟨name, ttl, if ip.is4 then gs "A" else gs "AAAA", ip.toGoString⟩
  | .caa name ttl flags tag value =>
    ⟨name, ttl, gs "CAA", goItoaNat flags ++ ' ' :: tag ++ ' ' :: goQuote value⟩
  | .cname name ttl target => ⟨name, ttl, gs "CNAME", target⟩
  | .mx name ttl preference target =>
    ⟨name, ttl, gs "MX", goItoaNat preference ++ ' ' :: target⟩
  | .ns name ttl target => ⟨name, ttl, gs "NS", target⟩
  | .srv service transport name ttl priority weight port target =>
    ⟨'_' :: service ++ '.' :: '_' :: transport ++ '.' :: name, ttl, gs "SRV",
      goItoaNat priority ++ ' ' :: goItoaNat weight ++ ' ' :: goItoaNat port ++ ' ' :: target⟩
  | .txt name ttl text => ⟨name, ttl, gs "TXT", text⟩
  | .plain rr => rr

/-! ### The provider-side flat record and the codec (`utils.go`) -/

/-- `ApiDnsRecord` from `utils.go` (field order and zero values as in Go). -/
structure ApiDnsRecord where
  Id : GoStr := []
  Type_ : GoStr := []
  Host : GoStr := []
  Record : GoStr := []
  Failover : GoStr := []
  Ttl : GoStr := []
  CAAFlag : Nat := 0
  CAAType : GoStr := []
  CAAValue : GoStr := []
  Priority : Nat := 0
  Port : Nat := 0
  Weight : Nat := 0
  Status : Int := 0
  deriving DecidableEq

/-- `fromLibdnsRecord` from `utils.go`: encode a generic record (with a
caller-chosen identifier) into the flat provider representation.  The
wildcard arm is Go's `default` case, which `libdns.TXT` and `libdns.RR`
both fall into. -/
def fromLibdnsRecord (rec : LibdnsRecord) (id : GoStr) : ApiDnsRecord :=
  let ttl := goItoa (ttlRounder rec.RR.ttl)
  let type_ := rec.RR.type_
  match rec with
  | .address name _ ip =>
    { Id := id, Ttl := ttl, Type_ := type_, Host := name, Record := ip.toGoString }
  | .caa name _ flags tag value =>
    { Id := id, Ttl := ttl, Type_ := type_, Host := name, CAAFlag := flags,
      CAAType := tag, CAAValue := value }
  | .cname name _ target =>
    { Id := id, Ttl := ttl, Type_ := type_, Host := name, Record := target }
  | .mx name _ preference target =>
    { Id := id, Ttl := ttl, Type_ := type_, Host := name, Priority := preference,
      Record := target }
  | .ns name _ target =>
    { Id := id, Ttl := ttl, Type_ := type_, Host := name, Record := target }
  | .srv service transport name _ priority weight port target =>
    { Id := id, Ttl := ttl, Type_ := type_,
      Host := '_' :: service ++ '.' :: '_' :: transport ++ '.' :: name,
      Priority := priority, Weight := weight, Port := port, Record := target }
  | rec =>
    let rr := rec.RR
    { Id := id, Ttl := ttl, Type_ := type_, Host := rr.name, Record := rr.data }

/-- Structured decode errors of `ApiDnsRecord.toLibdnsRecord`, carrying the
data the Go error message interpolates. -/
inductive DecodeErr where
  | invalidTTL (ttl : GoStr)
  | invalidIP (record : GoStr)
  | srvBadName (host : GoStr) (got : Nat)
  deriving DecidableEq

/-- `ApiDnsRecord.toLibdnsRecord` from `utils.go`: decode a flat provider
record into the generic representation. -/
def ApiDnsRecord.toLibdnsRecord (r : ApiDnsRecord) : Except DecodeErr LibdnsRecord :=
  match goAtoi r.Ttl with
  | none => .error (.invalidTTL r.Ttl)
  | some rawttl =>
    let ttl : Int := rawttl
    if r.Type_ = gs "A" ∨ r.Type_ = gs "AAAA" then
      match parseAddr r.Record with
      | none => .error (.invalidIP r.Record)
      | some addr => .ok (.address r.Host ttl addr)
    else if r.Type_ = gs "CAA" then
      .ok (.caa r.Host ttl r.CAAFlag r.CAAType r.CAAValue)
    else if r.Type_ = gs "CNAME" then
      .ok (.cname r.Host ttl r.Record)
    else if r.Type_ = gs "MX" then
      .ok (.mx r.Host ttl r.Priority r.Record)
    else if r.Type_ = gs "NS" then
      .ok (.ns r.Host ttl r.Record)
    else if r.Type_ = gs "SRV" then
      match goSplitN3 r.Host with
      | [p0, p1, p2] =>
        .ok (.srv (trimUnderscore p0) (trimUnderscore p1) p2 ttl
          r.Priority r.Weight r.Port r.Record)
      | parts => .error (.srvBadName r.Host parts.length)
    else if r.Type_ = gs "TXT" then
      .ok (.txt r.Host ttl r.Record)
    else
      .ok (.plain ⟨r.Host, ttl, r.Type_, r.Record⟩)

/-! ### RRset grouping (`utils.go`)

Go maps keyed by `nameAndType` are modelled as association lists in
key-insertion order; values accumulate in append order exactly as in
`clouDNSRecordsToMap` / `libdnsRecordsToMap`. -/

/-- The grouping key from `utils.go`. -/
@[ext]
structure nameAndType where
  name : GoStr
  type_ : GoStr
  deriving DecidableEq

/-- Append `v` to the group of key `k`, creating the group if absent. -/
def addToGroup {α : Type} : List (nameAndType × List α) → nameAndType → α →
    List (nameAndType × List α)
  | [], k, v => [(k, [v])]
  | (k2, vs) :: rest, k, v =>
    if k2 = k then (k2, vs ++ [v]) :: rest else (k2, vs) :: addToGroup rest k v

/-- Go map indexing with the zero value (`nil` slice) for absent keys. -/
def lookupD {α : Type} : List (nameAndType × List α) → nameAndType → List α
  | [], _ => []
  | (k2, vs) :: rest, k => if k2 = k then vs else lookupD rest k

/-- `clouDNSRecordsToMap` from `utils.go`. -/
def clouDNSRecordsToMap (recs : List ApiDnsRecord) : List (nameAndType × List ApiDnsRecord) :=
  recs.foldl (fun m res => addToGroup m ⟨res.Host, res.Type_⟩ res) []

/-- `libdnsRecordsToMap` from `utils.go`: records are flattened through
`RR()` before grouping. -/
def libdnsRecordsToMap (recs : List LibdnsRecord) : List (nameAndType × List RRrec) :=
  recs.foldl (fun m res => addToGroup m ⟨res.RR.name, res.RR.type_⟩ res.RR) []

/-! ### The reconciliation engine (`utils.go`) -/

/-- The operation tags from `utils.go` (`nop` is declared but never used). -/
inductive operation where
  | nop
  | addRecord
  | modifyRecord
  | deleteRecord
  deriving DecidableEq

/-- One reconciliation operation. -/
structure operationEntry where
  op : operation
  record : ApiDnsRecord
  deriving DecidableEq

/-- `compareIDlessRecord` from `utils.go`, exactly as written there: it
compares `Type`, `Host`, `Record`, `Ttl`, `CAAFlag`, `CAAType`, `Priority`,
`Port` and `Weight` — and does not compare `CAAValue`. -/
def compareIDlessRecord (a b : ApiDnsRecord) : Bool :=
  decide (a.Type_ = b.Type_ ∧
    a.Host = b.Host ∧
    a.Record = b.Record ∧
    a.Ttl = b.Ttl ∧
    a.CAAFlag = b.CAAFlag ∧
    a.CAAType = b.CAAType ∧
    a.Priority = b.Priority ∧
    a.Port = b.Port ∧
    a.Weight = b.Weight)

/-- Insertion into the `deleted` set (`map[ApiDnsRecord]bool` keyed by the
full record value): first-insertion order, value-deduplicated. -/
def markDeleted (deleted : List ApiDnsRecord) (r : ApiDnsRecord) : List ApiDnsRecord :=
  if r ∈ deleted then deleted else deleted ++ [r]

/-- `createUpdateOperations` from `utils.go`: lockstep positional walk of
the existing and desired sequences of one group.  Returns the emitted
operations and the updated `deleted` set (threaded in Go through the
mutable map argument). -/
def createUpdateOperations :
    List ApiDnsRecord → List RRrec → List ApiDnsRecord →
      List operationEntry × List ApiDnsRecord
  | e :: es, d :: ds, deleted =>
    let modifiedRR := fromLibdnsRecord (.plain d) e.Id
    let next := createUpdateOperations es ds deleted
    if compareIDlessRecord e modifiedRR then next
    else (⟨.modifyRecord, modifiedRR⟩ :: next.1, next.2)
  | e :: es, [], deleted => ([], (e :: es).foldl markDeleted deleted)
  | [], ds, deleted =>
    (ds.map (fun d => ⟨.addRecord, fromLibdnsRecord (.plain d) []⟩), deleted)

/-- The loop body of `makeOperationList` for one desired group: groups with
no existing counterpart become pure adds, the rest go through
`createUpdateOperations` (which threads the `deleted` set). -/
def molStep (existing : List (nameAndType × List ApiDnsRecord))
    (acc : List operationEntry × List ApiDnsRecord) (kv : nameAndType × List RRrec) :
    List operationEntry × List ApiDnsRecord :=
  let existingRRSet := lookupD existing kv.1
  if existingRRSet = [] then
    (acc.1 ++ kv.2.map (fun d => ⟨.addRecord, fromLibdnsRecord (.plain d) []⟩), acc.2)
  else
    let next := createUpdateOperations existingRRSet kv.2 acc.2
    (acc.1 ++ next.1, next.2)

/-- `makeOperationList` from `utils.go`: visit every desired group (never
the existing-only ones), then prepend the deduplicated deletions. -/
def makeOperationList (desired : List (nameAndType × List RRrec))
    (existing : List (nameAndType × List ApiDnsRecord)) : List operationEntry :=
  let res := desired.foldl (molStep existing) ([], [])
  res.2.map (fun d => ⟨.deleteRecord, d⟩) ++ res.1

/-! ### Orchestration (`provider.go`)

Remote calls are modelled by an oracle giving the outcome of each
operation application (`processOperation`): an optional returned record
(deletes return none even on success) and an optional error.  The
aggregated `errors.Join` value is modelled as the list of non-nil errors,
`[]` standing for `nil`. -/

/-- Abstract Go error values, with the wrapper produced by
`RetryWithBackoff` on exhaustion. -/
inductive GoErr where
  | remote (tag : Nat)
  | wrapped (attempts : Int) (cause : GoErr)
  deriving DecidableEq

/-- The application loop of `SetRecords` (lines 137-143 of `provider.go`):
apply every operation in order, joining errors and collecting non-nil
returned records; `i` is the position of the next operation, letting the
oracle give per-invocation outcomes. -/
def applyOps (f : Nat → operationEntry → Option LibdnsRecord × Option GoErr) :
    Nat → List operationEntry → List LibdnsRecord × List GoErr
  | _, [] => ([], [])
  | i, op :: rest =>
    let out := f i op
    let next := applyOps f (i + 1) rest
    (out.1.toList ++ next.1, out.2.toList ++ next.2)

/-- `Provider.SetRecords` after a successful upstream fetch: group both
sides, reconcile, apply every operation through the oracle. -/
def SetRecords (f : Nat → operationEntry → Option LibdnsRecord × Option GoErr)
    (upstream : List ApiDnsRecord) (records : List LibdnsRecord) :
    List LibdnsRecord × List GoErr :=
  let existing := clouDNSRecordsToMap upstream
  let rrsets := libdnsRecordsToMap records
  let oplist := makeOperationList rrsets existing
  applyOps f 0 oplist

/-- The operation list `SetRecords` computes before its application loop. -/
def reconcileOps (upstream : List ApiDnsRecord) (records : List LibdnsRecord) :
    List operationEntry :=
  makeOperationList (libdnsRecordsToMap records) (clouDNSRecordsToMap upstream)

/-- `matchDeleteTarget` from `provider.go`: wildcard matching on the RR
views — an empty/zero target field matches anything, a set field must match
exactly. -/
def matchDeleteTarget (target matched : LibdnsRecord) : Bool :=
  let matchedRR := matched.RR
  let targetRR := target.RR
  if targetRR.type_ ≠ [] ∧ targetRR.type_ ≠ matchedRR.type_ then false
  else if targetRR.ttl ≠ 0 ∧ targetRR.ttl ≠ matchedRR.ttl then false
  else if targetRR.data ≠ [] ∧ targetRR.data ≠ matchedRR.data then false
  else true

/-- The inner loop of `Provider.DeleteRecords` over one candidate group:
convert each candidate (a conversion error aborts the whole call), delete
every candidate accepted by `matchDeleteTarget`.  The remote delete call is
modelled as succeeding. -/
def deleteFromGroup (t : LibdnsRecord) :
    List ApiDnsRecord → Except DecodeErr (List LibdnsRecord)
  | [] => .ok []
  | m :: ms =>
    match m.toLibdnsRecord with
    | .error e => .error e
    | .ok ml =>
      match deleteFromGroup t ms with
      | .error e => .error e
      | .ok rest => .ok (if matchDeleteTarget t ml then ml :: rest else rest)

/-- The outer loop of `Provider.DeleteRecords` over the targets: each target
selects the existing group at its own `(name, type)` key. -/
def deleteRecordsGo (keyed : List (nameAndType × List ApiDnsRecord)) :
    List LibdnsRecord → Except DecodeErr (List LibdnsRecord)
  | [] => .ok []
  | t :: ts =>
    match deleteFromGroup t (lookupD keyed ⟨t.RR.name, t.RR.type_⟩) with
    | .error e => .error e
    | .ok ds =>
      match deleteRecordsGo keyed ts with
      | .error e => .error e
      | .ok rest => .ok (ds ++ rest)

/-- `Provider.DeleteRecords` after a successful upstream fetch. -/
def DeleteRecords (upstream : List ApiDnsRecord) (targets : List LibdnsRecord) :
    Except DecodeErr (List LibdnsRecord) :=
  deleteRecordsGo (clouDNSRecordsToMap upstream) targets

/-! ### `RetryWithBackoff` (`utils.go`)

The operation is an oracle from the attempt index to that invocation's
result.  The context is never cancelled and backoff sleeping does not
affect results, so neither is modelled.  The result is paired with the
number of times the operation was invoked. -/

/-- The retry loop: `remaining` counts iterations still allowed (Go's
`attempt < maxRetries` guard), `k` is the attempt index, `err` the `err`
variable of the Go function (`nil` before the first attempt). -/
def retryGo (op : Nat → Option GoErr) (maxRetries : Int) :
    Nat → Nat → Option GoErr → Option GoErr × Nat
  | 0, k, err => (err, k)
  | remaining + 1, k, _ =>
    match op k with
    | none => (none, k + 1)
    | some e =>
      if remaining = 0 then (some (.wrapped maxRetries e), k + 1)
      else retryGo op maxRetries remaining (k + 1) (some e)

/-- `RetryWithBackoff` from `utils.go`: result and invocation count. -/
def RetryWithBackoff (op : Nat → Option GoErr) (maxRetries : Int) :
    Option GoErr × Nat :=
  retryGo op maxRetries maxRetries.toNat 0 none

/-! ### Derived notions used by the statements below -/

instance {ε α : Type} [DecidableEq ε] [DecidableEq α] : DecidableEq (Except ε α) :=
  fun x y =>
    match x, y with
    | .ok a, .ok b =>
      if h : a = b then .isTrue (by rw [h]) else .isFalse (by simp [h])
    | .error a, .error b =>
      if h : a = b then .isTrue (by rw [h]) else .isFalse (by simp [h])
    | .ok _, .error _ => .isFalse (by simp)
    | .error _, .ok _ => .isFalse (by simp)

/-- The thirteen accepted TTL values in their string encoding. -/
def ttlStrings : List GoStr :=
  [gs "60", gs "300", gs "900", gs "1800", gs "3600", gs "21600", gs "43200",
    gs "86400", gs "172800", gs "259200", gs "604800", gs "1209600", gs "2592000"]

/-- A TTL string is canonical when it is the decimal encoding of an accepted
quantized value. -/
def isCanonicalTtl (s : GoStr) : Bool :=
  decide (s ∈ ttlStrings)

/-- An address data string is canonical when it parses and re-renders to
itself and has the address family the record type announces. -/
def isCanonicalAddr (record : GoStr) (want4 : Bool) : Bool :=
  match parseAddr record with
  | some a => decide (a.toGoString = record ∧ a.is4 = want4)
  | none => false

/-- Canonical form of a flat provider record: quantized decimal TTL,
canonical per-type field encodings, and zero values in every field the
record type does not use (Go leaves them at their zero values, so only such
records can be codec outputs). -/
def isCanonical (r : ApiDnsRecord) : Bool :=
  isCanonicalTtl r.Ttl && decide (r.Failover = [] ∧ r.Status = 0) &&
    (if r.Type_ = gs "A" then
      isCanonicalAddr r.Record true &&
        decide (r.CAAFlag = 0 ∧ r.CAAType = [] ∧ r.CAAValue = [] ∧
          r.Priority = 0 ∧ r.Port = 0 ∧ r.Weight = 0)
    else if r.Type_ = gs "AAAA" then
      isCanonicalAddr r.Record false &&
        decide (r.CAAFlag = 0 ∧ r.CAAType = [] ∧ r.CAAValue = [] ∧
          r.Priority = 0 ∧ r.Port = 0 ∧ r.Weight = 0)
    else if r.Type_ = gs "CAA" then
      decide (r.Record = [] ∧ r.Priority = 0 ∧ r.Port = 0 ∧ r.Weight = 0)
    else if r.Type_ = gs "CNAME" ∨ r.Type_ = gs "NS" ∨ r.Type_ = gs "TXT" then
      decide (r.CAAFlag = 0 ∧ r.CAAType = [] ∧ r.CAAValue = [] ∧
        r.Priority = 0 ∧ r.Port = 0 ∧ r.Weight = 0)
    else if r.Type_ = gs "MX" then
      decide (r.CAAFlag = 0 ∧ r.CAAType = [] ∧ r.CAAValue = [] ∧
        r.Port = 0 ∧ r.Weight = 0)
    else if r.Type_ = gs "SRV" then
      (match goSplitN3 r.Host with
        | [p0, p1, _] =>
          decide (p0.head? = some '_' ∧ p1.head? = some '_')
        | _ => false) &&
        decide (r.CAAFlag = 0 ∧ r.CAAType = [] ∧ r.CAAValue = [])
    else
      decide (r.CAAFlag = 0 ∧ r.CAAType = [] ∧ r.CAAValue = [] ∧
        r.Priority = 0 ∧ r.Port = 0 ∧ r.Weight = 0))

/-- The deletions one target owes per the specification: all convertible
candidates of the existing group at the target's `(name, type)` key that
pass the wildcard match. -/
def candidateDeletes (upstream : List ApiDnsRecord) (t : LibdnsRecord) :
    List LibdnsRecord :=
  (lookupD (clouDNSRecordsToMap upstream) ⟨t.RR.name, t.RR.type_⟩).filterMap
    (fun m =>
      match m.toLibdnsRecord with
      | .ok ml => if matchDeleteTarget t ml then some ml else none
      | .error _ => none)

/-! ### Concrete records used by counterexamples and witnesses -/

/-- Existing record `192.0.2.1`, id `1` (Go test `remove rrset entry`). -/
def recA1 : ApiDnsRecord :=
  { Id := gs "1", Host := gs "example.com", Type_ := gs "A",
    Record := gs "192.0.2.1", Ttl := gs "60" }

/-- Existing record `192.0.2.2`, id `2`. -/
def recA2 : ApiDnsRecord :=
  { Id := gs "2", Host := gs "example.com", Type_ := gs "A",
    Record := gs "192.0.2.2", Ttl := gs "60" }

/-- Desired flat record `192.0.2.3`, same name and TTL. -/
def desiredA3 : RRrec :=
  ⟨gs "example.com", 60, gs "A", gs "192.0.2.3"⟩

/-- The expected modify payload: desired content under the existing id 1. -/
def modifiedA3 : ApiDnsRecord :=
  { Id := gs "1", Host := gs "example.com", Type_ := gs "A",
    Record := gs "192.0.2.3", Ttl := gs "60" }

/-- Two CAA provider records identical except for `CAAValue`. -/
def caaValueOne : ApiDnsRecord :=
  { Id := gs "10", Host := gs "example.com", Type_ := gs "CAA", Ttl := gs "60",
    CAAFlag := 0, CAAType := gs "issue", CAAValue := gs "ca-one.example" }

/-- Same as `caaValueOne` except for the identifier and `CAAValue`. -/
def caaValueTwo : ApiDnsRecord :=
  { Id := gs "11", Host := gs "example.com", Type_ := gs "CAA", Ttl := gs "60",
    CAAFlag := 0, CAAType := gs "issue", CAAValue := gs "ca-two.example" }

/-- A record whose TTL string is a negative integer: `strconv.Atoi` accepts
it, so decoding succeeds even though it is not a non-negative count. -/
def negTtlRec : ApiDnsRecord :=
  { Ttl := gs "-5", Type_ := gs "TXT", Host := gs "t", Record := gs "v" }

/-- The SRV record with a two-component host from the Go test. -/
def srvShortRec : ApiDnsRecord :=
  { Type_ := gs "SRV", Ttl := gs "60", Host := gs "_http._tcp" }

/-- The unparseable-TTL record from the Go test. -/
def ttlFooRec : ApiDnsRecord :=
  { Ttl := gs "foo" }

/-- The AAAA record with unparseable data from the Go test. -/
def aaaaFooRec : ApiDnsRecord :=
  { Type_ := gs "AAAA", Ttl := gs "60", Record := gs "foo" }

/-- The SRV record of the Go round-trip test (canonical form). -/
def srvCanonicalRec : ApiDnsRecord :=
  { Id := gs "7", Ttl := gs "60", Type_ := gs "SRV",
    Host := gs "_http._tcp.foo.example.com", Priority := 1, Weight := 5,
    Port := 80, Record := gs "other.example.com" }

/-- Witness maps for the frame property: one desired group, one untouched
existing group. -/
def frameDesired : List (nameAndType × List RRrec) :=
  [(⟨gs "a.example.com", gs "TXT"⟩, [⟨gs "a.example.com", 60, gs "TXT", gs "x"⟩])]

/-- The untouched existing record. -/
def frameUntouched : ApiDnsRecord :=
  { Id := gs "9", Host := gs "b.example.com", Type_ := gs "TXT",
    Record := gs "y", Ttl := gs "60" }

/-- Witness existing map containing only the untouched group. -/
def frameExisting : List (nameAndType × List ApiDnsRecord) :=
  [(⟨gs "b.example.com", gs "TXT"⟩, [frameUntouched])]

/-- Two TXT records under one name for the delete-matching witness. -/
def txtCandidateOne : ApiDnsRecord :=
  { Id := gs "1", Host := gs "w", Type_ := gs "TXT", Record := gs "a", Ttl := gs "60" }

/-- Second TXT record under the same name. -/
def txtCandidateTwo : ApiDnsRecord :=
  { Id := gs "2", Host := gs "w", Type_ := gs "TXT", Record := gs "b", Ttl := gs "60" }

/-- A generic delete target: TTL 0 and empty text, so both candidates match. -/
def txtWildcardTarget : LibdnsRecord :=
  .txt (gs "w") 0 []

/-! ## Supporting lemmas -/

theorem ttlLoop_cons (t v : Int) (rest : List Int) :
    ttlLoop t (v :: rest) = if t ≤ v then v else ttlLoop t rest := rfl

theorem ttlLoop_mem (t : Int) (l : List Int) :
    ttlLoop t l ∈ l ∨ ttlLoop t l = 2592000 := by
  induction l with
  | nil => right; rfl
  | cons v rest ih =>
    rw [ttlLoop_cons]
    split_ifs with h
    · left; exact List.mem_cons_self v rest
    · rcases ih with hm | he
      · left; exact List.mem_cons_of_mem v hm
      · right; exact he

theorem ttlLoop_ge (t : Int) (l : List Int) (h : t ≤ 2592000) : t ≤ ttlLoop t l := by
  induction l with
  | nil => exact h
  | cons v rest ih =>
    rw [ttlLoop_cons]
    split_ifs with hv
    · exact hv
    · exact ih

theorem ttlLoop_min (t : Int) (l : List Int) (hs : l.Sorted (· ≤ ·)) :
    ∀ m ∈ l, t ≤ m → ttlLoop t l ≤ m := by
  induction l with
  | nil => intro m hm; exact absurd hm (List.not_mem_nil m)
  | cons v rest ih =>
    intro m hm ht
    rw [ttlLoop_cons]
    rcases List.mem_cons.mp hm with rfl | hm2
    · simp [ht]
    · split_ifs with hv
      · exact (List.sorted_cons.mp hs).1 m hm2
      · exact ih (List.sorted_cons.mp hs).2 m hm2 ht

theorem ttlLoop_mono (t s : Int) (l : List Int) (h : t ≤ s)
    (hs : l.Sorted (· ≤ ·)) (hb : ∀ m ∈ l, m ≤ 2592000) :
    ttlLoop t l ≤ ttlLoop s l := by
  induction l with
  | nil => exact le_refl _
  | cons v rest ih =>
    rw [ttlLoop_cons, ttlLoop_cons]
    split_ifs with h1 h2 h2
    · exact le_refl v
    · rcases ttlLoop_mem s rest with hm | he
      · exact (List.sorted_cons.mp hs).1 _ hm
      · rw [he]; exact hb v (List.mem_cons_self v rest)
    · omega
    · exact ih (List.sorted_cons.mp hs).2
        (fun m hm => hb m (List.mem_cons_of_mem v hm))

theorem ttlLoop_all_lt (t : Int) (l : List Int) (h : ∀ v ∈ l, v < t) :
    ttlLoop t l = 2592000 := by
  induction l with
  | nil => rfl
  | cons v rest ih =>
    rw [ttlLoop_cons]
    split_ifs with hv
    · exact absurd (h v (List.mem_cons_self v rest)) (by omega)
    · exact ih (fun m hm => h m (List.mem_cons_of_mem v hm))

theorem ttlLoopSteps_sorted : ttlLoopSteps.Sorted (· ≤ ·) := by decide

theorem ttlLoopSteps_le (m : Int) (hm : m ∈ ttlLoopSteps) : m ≤ 2592000 := by
  fin_cases hm <;> decide

theorem ttlLoopSteps_le_last (m : Int) (hm : m ∈ ttlLoopSteps) : m ≤ 1209600 := by
  fin_cases hm <;> decide

theorem validTTLs_eq : validTTLs = ttlLoopSteps ++ [2592000] := rfl

theorem ttlRounder_mem (t : Int) : ttlRounder t ∈ validTTLs := by
  rw [validTTLs_eq]
  rcases ttlLoop_mem t ttlLoopSteps with hm | he
  · exact List.mem_append_left _ hm
  · rw [ttlRounder, he]; exact List.mem_append_right _ (List.mem_singleton.mpr rfl)

theorem ttlRounder_min (t : Int) : ∀ m ∈ validTTLs, t ≤ m → ttlRounder t ≤ m := by
  intro m hm ht
  rw [validTTLs_eq] at hm
  rcases List.mem_append.mp hm with hm1 | hm2
  · exact ttlLoop_min t ttlLoopSteps ttlLoopSteps_sorted m hm1 ht
  · rw [List.mem_singleton.mp hm2]
    rcases ttlLoop_mem t ttlLoopSteps with hm3 | he
    · exact ttlLoopSteps_le _ hm3
    · rw [ttlRounder, he]

theorem ttlRounder_ge (t : Int) (h : t ≤ 2592000) : t ≤ ttlRounder t :=
  ttlLoop_ge t ttlLoopSteps h

theorem ttlRounder_fixed : ∀ v ∈ validTTLs, ttlRounder v = v := by decide

theorem ttlRounder_idem (t : Int) : ttlRounder (ttlRounder t) = ttlRounder t :=
  ttlRounder_fixed (ttlRounder t) (ttlRounder_mem t)

theorem ttlRounder_mono (t s : Int) (h : t ≤ s) : ttlRounder t ≤ ttlRounder s :=
  ttlLoop_mono t s ttlLoopSteps h ttlLoopSteps_sorted ttlLoopSteps_le

theorem ttlRounder_low (t : Int) (h : t ≤ 60) : ttlRounder t = 60 := by
  have : ttlLoopSteps = 60 :: [300, 900, 1800, 3600, 21600, 43200, 86400,
    172800, 259200, 604800, 1209600] := rfl
  rw [ttlRounder, this, ttlLoop_cons, if_pos h]

theorem ttlRounder_high (t : Int) (h : 1209600 < t) : ttlRounder t = 2592000 :=
  ttlLoop_all_lt t ttlLoopSteps
    (fun v hv => lt_of_le_of_lt (ttlLoopSteps_le_last v hv) h)

/-! ## Claim theorems -/

/-- C5: `ttlRounder` always returns a member of the fixed accepted set and
that member is the smallest one greater than or equal to the input whenever
the input does not exceed the largest member (above it the function clamps
to 2592000, as the final conjunct states); consequently it is idempotent and
monotonic, every input of at most 60 seconds maps to 60, and every input
above 1209600 seconds maps to 2592000. -/
theorem ttlRounder_quantization (t : Int) :
    ttlRounder t ∈ validTTLs ∧
    (∀ m ∈ validTTLs, t ≤ m → ttlRounder t ≤ m) ∧
    (t ≤ 2592000 → t ≤ ttlRounder t) ∧
    ttlRounder (ttlRounder t) = ttlRounder t ∧
    (∀ s, t ≤ s → ttlRounder t ≤ ttlRounder s) ∧
    (t ≤ 60 → ttlRounder t = 60) ∧
    (1209600 < t → ttlRounder t = 2592000) :=
  ⟨ttlRounder_mem t, ttlRounder_min t, ttlRounder_ge t, ttlRounder_idem t,
    fun s hs => ttlRounder_mono t s hs, ttlRounder_low t, ttlRounder_high t⟩

/-- Witness for C5 at the concrete input 100. -/
theorem ttlRounder_quantization_witness :
    ttlRounder 100 ∈ validTTLs ∧
    (∀ m ∈ validTTLs, 100 ≤ m → ttlRounder 100 ≤ m) ∧
    ((100 : Int) ≤ 2592000 → 100 ≤ ttlRounder 100) ∧
    ttlRounder (ttlRounder 100) = ttlRounder 100 ∧
    (∀ s, 100 ≤ s → ttlRounder 100 ≤ ttlRounder s) ∧
    ((100 : Int) ≤ 60 → ttlRounder 100 = 60) ∧
    (1209600 < (100 : Int) → ttlRounder 100 = 2592000) :=
  ttlRounder_quantization 100

/-- C10: with a non-positive retry budget, `RetryWithBackoff` performs zero
attempts and returns the `nil` initial value of its `err` variable — the
zero-attempt case reports success. -/
theorem retryWithBackoff_nonpositive (op : Nat → Option GoErr) (maxRetries : Int)
    (h : maxRetries ≤ 0) : RetryWithBackoff op maxRetries = (none, 0) := by
  rw [RetryWithBackoff, Int.toNat_of_nonpos h]
  rfl

/-- Witness for C10 at `maxRetries = -2` with an always-failing operation. -/
theorem retryWithBackoff_nonpositive_witness :
    (-2 : Int) ≤ 0 ∧
      RetryWithBackoff (fun _ => some (.remote 3)) (-2) = (none, 0) :=
  ⟨by decide, retryWithBackoff_nonpositive (fun _ => some (.remote 3)) (-2) (by decide)⟩

/-- C1 (code evaluation at the failing input): `compareIDlessRecord`, as
written in `utils.go`, reports two records content-equal although they
differ in `CAAValue` — the `CAAValue` comparison is missing from the code. -/
theorem compareIDlessRecord_ignores_caa_value :
    compareIDlessRecord caaValueOne caaValueTwo = true ∧
      caaValueOne.CAAValue ≠ caaValueTwo.CAAValue := by decide

/-- C2: reconciling existing `{A 192.0.2.1 id 1, A 192.0.2.2 id 2}` against
desired `{A 192.0.2.3}` (same name and TTL) yields exactly one delete of the
id-2 record followed by one modify carrying 192.0.2.3 under id 1. -/
theorem makeOperationList_remove_rrset_entry :
    makeOperationList [(⟨gs "example.com", gs "A"⟩, [desiredA3])]
      [(⟨gs "example.com", gs "A"⟩, [recA1, recA2])] =
    [⟨.deleteRecord, recA2⟩, ⟨.modifyRecord, modifiedA3⟩] := by decide

/-! ### Reconciliation invariants (towards C3 and C7) -/

theorem markDeleted_mem (deleted : List ApiDnsRecord) (r x : ApiDnsRecord)
    (h : x ∈ markDeleted deleted r) : x ∈ deleted ∨ x = r := by
  unfold markDeleted at h
  split_ifs at h with hr
  · exact .inl h
  · rcases List.mem_append.mp h with h1 | h1
    · exact .inl h1
    · exact .inr (List.mem_singleton.mp h1)

theorem markDeleted_nodup (deleted : List ApiDnsRecord) (r : ApiDnsRecord)
    (h : deleted.Nodup) : (markDeleted deleted r).Nodup := by
  unfold markDeleted
  split_ifs with hr
  · exact h
  · rw [← List.concat_eq_append]
    exact List.Nodup.concat hr h

theorem foldl_markDeleted_nodup (es : List ApiDnsRecord) :
    ∀ deleted : List ApiDnsRecord, deleted.Nodup →
      (es.foldl markDeleted deleted).Nodup := by
  induction es with
  | nil => intro d h; exact h
  | cons e es ih => intro d h; exact ih _ (markDeleted_nodup d e h)

theorem foldl_markDeleted_mem (es : List ApiDnsRecord) :
    ∀ deleted x, x ∈ es.foldl markDeleted deleted → x ∈ deleted ∨ x ∈ es := by
  induction es with
  | nil => intro d x h; exact .inl h
  | cons e es ih =>
    intro d x h
    rcases ih _ x h with h1 | h1
    · rcases markDeleted_mem d e x h1 with h2 | h2
      · exact .inl h2
      · exact .inr (h2 ▸ List.mem_cons_self e es)
    · exact .inr (List.mem_cons_of_mem e h1)

theorem createUpdateOperations_ops_kind (es : List ApiDnsRecord) :
    ∀ (ds : List RRrec) (deleted : List ApiDnsRecord),
      ∀ o ∈ (createUpdateOperations es ds deleted).1,
        o.op = .addRecord ∨ o.op = .modifyRecord := by
  induction es with
  | nil =>
    intro ds deleted o ho
    simp only [createUpdateOperations] at ho
    rcases List.mem_map.mp ho with ⟨d, _, rfl⟩
    exact .inl rfl
  | cons e es ih =>
    intro ds deleted o ho
    cases ds with
    | nil => simp [createUpdateOperations] at ho
    | cons d ds =>
      simp only [createUpdateOperations] at ho
      split_ifs at ho with hcmp
      · exact ih ds deleted o ho
      · rcases List.mem_cons.mp ho with rfl | h2
        · exact .inr rfl
        · exact ih ds deleted o h2

theorem createUpdateOperations_deleted_nodup (es : List ApiDnsRecord) :
    ∀ (ds : List RRrec) (deleted : List ApiDnsRecord), deleted.Nodup →
      (createUpdateOperations es ds deleted).2.Nodup := by
  induction es with
  | nil => intro ds deleted h; simpa [createUpdateOperations] using h
  | cons e es ih =>
    intro ds deleted h
    cases ds with
    | nil =>
      simp only [createUpdateOperations]
      exact foldl_markDeleted_nodup _ _ h
    | cons d ds =>
      simp only [createUpdateOperations]
      split_ifs with hcmp
      · exact ih ds deleted h
      · exact ih ds deleted h

theorem createUpdateOperations_deleted_mem (es : List ApiDnsRecord) :
    ∀ (ds : List RRrec) (deleted : List ApiDnsRecord),
      ∀ x ∈ (createUpdateOperations es ds deleted).2, x ∈ deleted ∨ x ∈ es := by
  induction es with
  | nil =>
    intro ds deleted x hx
    simp only [createUpdateOperations] at hx
    exact .inl hx
  | cons e es ih =>
    intro ds deleted x hx
    cases ds with
    | nil =>
      simp only [createUpdateOperations] at hx
      exact foldl_markDeleted_mem _ _ _ hx
    | cons d ds =>
      simp only [createUpdateOperations] at hx
      split_ifs at hx with hcmp
      · rcases ih ds deleted x hx with h1 | h1
        · exact .inl h1
        · exact .inr (List.mem_cons_of_mem e h1)
      · rcases ih ds deleted x hx with h1 | h1
        · exact .inl h1
        · exact .inr (List.mem_cons_of_mem e h1)

theorem createUpdateOperations_ops_record (es : List ApiDnsRecord) :
    ∀ (ds : List RRrec) (deleted : List ApiDnsRecord),
      ∀ o ∈ (createUpdateOperations es ds deleted).1,
        ∃ d ∈ ds, ∃ id, o.record = fromLibdnsRecord (.plain d) id := by
  induction es with
  | nil =>
    intro ds deleted o ho
    simp only [createUpdateOperations] at ho
    rcases List.mem_map.mp ho with ⟨d, hd, rfl⟩
    exact ⟨d, hd, [], rfl⟩
  | cons e es ih =>
    intro ds deleted o ho
    cases ds with
    | nil => simp [createUpdateOperations] at ho
    | cons d ds =>
      simp only [createUpdateOperations] at ho
      split_ifs at ho with hcmp
      · rcases ih ds deleted o ho with ⟨d2, hd2, id, hrec⟩
        exact ⟨d2, List.mem_cons_of_mem d hd2, id, hrec⟩
      · rcases List.mem_cons.mp ho with rfl | h2
        · exact ⟨d, List.mem_cons_self d ds, e.Id, rfl⟩
        · rcases ih ds deleted o h2 with ⟨d2, hd2, id, hrec⟩
          exact ⟨d2, List.mem_cons_of_mem d hd2, id, hrec⟩

theorem molFold_inv (existing : List (nameAndType × List ApiDnsRecord))
    (l : List (nameAndType × List RRrec)) :
    ∀ acc : List operationEntry × List ApiDnsRecord,
      (∀ o ∈ acc.1, o.op = .addRecord ∨ o.op = .modifyRecord) → acc.2.Nodup →
      (∀ o ∈ (l.foldl (molStep existing) acc).1,
        o.op = .addRecord ∨ o.op = .modifyRecord) ∧
      (l.foldl (molStep existing) acc).2.Nodup := by
  induction l with
  | nil => intro acc h1 h2; exact ⟨h1, h2⟩
  | cons kv l ih =>
    intro acc h1 h2
    rw [List.foldl_cons]
    apply ih
    · intro o ho
      simp only [molStep] at ho
      split_ifs at ho with he
      · rcases List.mem_append.mp ho with h3 | h3
        · exact h1 o h3
        · rcases List.mem_map.mp h3 with ⟨d, _, rfl⟩
          exact .inl rfl
      · rcases List.mem_append.mp ho with h3 | h3
        · exact h1 o h3
        · exact createUpdateOperations_ops_kind _ _ _ o h3
    · simp only [molStep]
      split_ifs with he
      · exact h2
      · exact createUpdateOperations_deleted_nodup _ _ _ h2

/-- C3: in every operation list produced by `makeOperationList`, all delete
operations come before every add and modify operation, and the deleted
records are pairwise distinct (the dedup set guarantees no existing flat
record value is deleted twice, even across groups). -/
theorem makeOperationList_deletes_first (desired : List (nameAndType × List RRrec))
    (existing : List (nameAndType × List ApiDnsRecord)) :
    ∃ (dels : List ApiDnsRecord) (rest : List operationEntry),
      makeOperationList desired existing =
        dels.map (fun r => ⟨operation.deleteRecord, r⟩) ++ rest ∧
      dels.Nodup ∧
      ∀ o ∈ rest, o.op = .addRecord ∨ o.op = .modifyRecord := by
  refine ⟨(desired.foldl (molStep existing) ([], [])).2,
    (desired.foldl (molStep existing) ([], [])).1, rfl, ?_, ?_⟩
  · exact (molFold_inv existing desired ([], []) (by intro o ho; simp at ho)
      List.nodup_nil).2
  · exact (molFold_inv existing desired ([], []) (by intro o ho; simp at ho)
      List.nodup_nil).1

/-- Witness for C3 at the concrete scenario of C2. -/
theorem makeOperationList_deletes_first_witness :
    ∃ (dels : List ApiDnsRecord) (rest : List operationEntry),
      makeOperationList [(⟨gs "example.com", gs "A"⟩, [desiredA3])]
        [(⟨gs "example.com", gs "A"⟩, [recA1, recA2])] =
        dels.map (fun r => ⟨operation.deleteRecord, r⟩) ++ rest ∧
      dels.Nodup ∧
      ∀ o ∈ rest, o.op = .addRecord ∨ o.op = .modifyRecord :=
  makeOperationList_deletes_first
    [(⟨gs "example.com", gs "A"⟩, [desiredA3])]
    [(⟨gs "example.com", gs "A"⟩, [recA1, recA2])]

/-! ### The frame property (towards C7) -/

theorem lookupD_mem {α : Type} (m : List (nameAndType × List α)) (k : nameAndType)
    (r : α) (h : r ∈ lookupD m k) : ∃ kv ∈ m, kv.1 = k ∧ r ∈ kv.2 := by
  induction m with
  | nil => simp [lookupD] at h
  | cons kv2 rest ih =>
    obtain ⟨k2, vs⟩ := kv2
    simp only [lookupD] at h
    split_ifs at h with hk
    · exact ⟨(k2, vs), List.mem_cons_self _ _, hk, h⟩
    · rcases ih h with ⟨kv3, h3, hk3, hr3⟩
      exact ⟨kv3, List.mem_cons_of_mem _ h3, hk3, hr3⟩

theorem fromLibdnsRecord_plain_fields (d : RRrec) (id : GoStr) :
    (fromLibdnsRecord (.plain d) id).Host = d.name ∧
    (fromLibdnsRecord (.plain d) id).Type_ = d.type_ := by
  constructor <;> rfl

theorem molFold_mem_inv (existing : List (nameAndType × List ApiDnsRecord))
    (desired : List (nameAndType × List RRrec)) :
    ∀ (l : List (nameAndType × List RRrec)), (∀ kv ∈ l, kv ∈ desired) →
    ∀ acc : List operationEntry × List ApiDnsRecord,
      (∀ o ∈ acc.1,
        (∃ kd ∈ desired, ∃ d ∈ kd.2, ∃ id, o.record = fromLibdnsRecord (.plain d) id)) →
      (∀ x ∈ acc.2, ∃ kd ∈ desired, x ∈ lookupD existing kd.1) →
      (∀ o ∈ (l.foldl (molStep existing) acc).1,
        (∃ kd ∈ desired, ∃ d ∈ kd.2, ∃ id, o.record = fromLibdnsRecord (.plain d) id)) ∧
      (∀ x ∈ (l.foldl (molStep existing) acc).2,
        ∃ kd ∈ desired, x ∈ lookupD existing kd.1) := by
  intro l
  induction l with
  | nil => intro _ acc h1 h2; exact ⟨h1, h2⟩
  | cons kv l ih =>
    intro hl acc h1 h2
    rw [List.foldl_cons]
    have hkv : kv ∈ desired := hl kv (List.mem_cons_self _ _)
    apply ih (fun kv2 h => hl kv2 (List.mem_cons_of_mem _ h))
    · intro o ho
      simp only [molStep] at ho
      split_ifs at ho with he
      · rcases List.mem_append.mp ho with h3 | h3
        · exact h1 o h3
        · rcases List.mem_map.mp h3 with ⟨d, hd, rfl⟩
          exact ⟨kv, hkv, d, hd, [], rfl⟩
      · rcases List.mem_append.mp ho with h3 | h3
        · exact h1 o h3
        · rcases createUpdateOperations_ops_record _ _ _ o h3 with ⟨d, hd, id, hrec⟩
          exact ⟨kv, hkv, d, hd, id, hrec⟩
    · intro x hx
      simp only [molStep] at hx
      split_ifs at hx with he
      · exact h2 x hx
      · rcases createUpdateOperations_deleted_mem _ _ _ x hx with h3 | h3
        · exact h2 x h3
        · exact ⟨kv, hkv, h3⟩

theorem makeOperationList_ops_origin (desired : List (nameAndType × List RRrec))
    (existing : List (nameAndType × List ApiDnsRecord)) :
    ∀ o ∈ makeOperationList desired existing,
      (∃ kd ∈ desired, ∃ d ∈ kd.2, ∃ id, o.record = fromLibdnsRecord (.plain d) id) ∨
      (∃ kd ∈ desired, o.record ∈ lookupD existing kd.1) := by
  intro o ho
  have hinv := molFold_mem_inv existing desired desired (fun kv h => h) ([], [])
    (by intro o h; simp at h) (by intro x h; simp at h)
  rcases List.mem_append.mp ho with h1 | h1
  · rcases List.mem_map.mp h1 with ⟨x, hx, rfl⟩
    exact .inr (hinv.2 x hx)
  · exact .inl (hinv.1 o h1)

/-- C7: a `(name, type)` group present only on the existing side contributes
no operation of any kind — none of its records appear in any emitted add,
modify, or delete.  The grouped maps are well-formed in the sense the
grouping functions guarantee: every member of a group carries the group's
own name and type. -/
theorem makeOperationList_frame (desired : List (nameAndType × List RRrec))
    (existing : List (nameAndType × List ApiDnsRecord))
    (hwd : ∀ kv ∈ desired, ∀ d ∈ kv.2, d.name = kv.1.name ∧ d.type_ = kv.1.type_)
    (hwe : ∀ kv ∈ existing, ∀ x ∈ kv.2, x.Host = kv.1.name ∧ x.Type_ = kv.1.type_)
    (kv : nameAndType × List ApiDnsRecord) (hkv : kv ∈ existing)
    (habs : ∀ kd ∈ desired, kd.1 ≠ kv.1)
    (r : ApiDnsRecord) (hr : r ∈ kv.2) :
    ∀ o ∈ makeOperationList desired existing, o.record ≠ r := by
  intro o ho heq
  have hrf := hwe kv hkv r hr
  rcases makeOperationList_ops_origin desired existing o ho with
    ⟨kd, hkd, d, hd, id, hrec⟩ | ⟨kd, hkd, hmem⟩
  · have hdf := hwd kd hkd d hd
    have hpf := fromLibdnsRecord_plain_fields d id
    apply habs kd hkd
    ext
    · rw [← hdf.1, ← hpf.1, ← hrec, heq, hrf.1]
    · rw [← hdf.2, ← hpf.2, ← hrec, heq, hrf.2]
  · rw [heq] at hmem
    rcases lookupD_mem existing kd.1 r hmem with ⟨kv2, hkv2, hkeq, hrm⟩
    have hrf2 := hwe kv2 hkv2 r hrm
    apply habs kd hkd
    ext
    · rw [← hkeq, ← hrf2.1, hrf.1]
    · rw [← hkeq, ← hrf2.2, hrf.2]

/-- Witness for C7: a desired TXT group for one name leaves an existing TXT
group under another name entirely untouched — instantiated at the single
add operation the scenario produces. -/
theorem makeOperationList_frame_witness :
    (⟨.addRecord,
      fromLibdnsRecord (.plain ⟨gs "a.example.com", 60, gs "TXT", gs "x"⟩) []⟩ :
        operationEntry).record ≠ frameUntouched :=
  makeOperationList_frame frameDesired frameExisting
    (by intro kv hkv d hd; fin_cases hkv <;> fin_cases hd <;> exact ⟨rfl, rfl⟩)
    (by intro kv hkv x hx; fin_cases hkv <;> fin_cases hx <;> exact ⟨rfl, rfl⟩)
    (⟨gs "b.example.com", gs "TXT"⟩, [frameUntouched])
    (by simp [frameExisting])
    (by intro kd hkd; fin_cases hkd <;> decide)
    frameUntouched
    (List.mem_singleton.mpr rfl)
    ⟨.addRecord,
      fromLibdnsRecord (.plain ⟨gs "a.example.com", 60, gs "TXT", gs "x"⟩) []⟩
    (by decide)

/-! ### The `SetRecords` application loop (towards C8) -/

theorem applyOps_spec (f : Nat → operationEntry → Option LibdnsRecord × Option GoErr)
    (ops : List operationEntry) :
    ∀ i, applyOps f i ops =
      ((List.enumFrom i ops).filterMap fun p => (f p.1 p.2).1,
        (List.enumFrom i ops).filterMap fun p => (f p.1 p.2).2) := by
  induction ops with
  | nil => intro i; rfl
  | cons op rest ih =>
    intro i
    simp only [applyOps, List.enumFrom, List.filterMap_cons, ih (i + 1)]
    cases (f i op).1 <;> cases (f i op).2 <;> simp [Option.toList]

/-- C8: the `SetRecords` loop applies every reconciled operation in order
and never aborts: its returned records are exactly the non-nil records of
every attempted operation in operation order, its aggregated error is
exactly the list of every operation failure in order (so a run with
failures still carries the other operations' successes), and the aggregated
error is `nil` precisely when no operation failed. -/
theorem setRecords_best_effort
    (f : Nat → operationEntry → Option LibdnsRecord × Option GoErr)
    (upstream : List ApiDnsRecord) (records : List LibdnsRecord) :
    SetRecords f upstream records =
      ((List.enumFrom 0 (reconcileOps upstream records)).filterMap
          fun p => (f p.1 p.2).1,
        (List.enumFrom 0 (reconcileOps upstream records)).filterMap
          fun p => (f p.1 p.2).2) ∧
    ((SetRecords f upstream records).2 = [] ↔
      ∀ p ∈ List.enumFrom 0 (reconcileOps upstream records), (f p.1 p.2).2 = none) := by
  have hs : SetRecords f upstream records =
      applyOps f 0 (reconcileOps upstream records) := rfl
  constructor
  · rw [hs]; exact applyOps_spec f (reconcileOps upstream records) 0
  · rw [hs, applyOps_spec f (reconcileOps upstream records) 0]
    exact List.filterMap_eq_nil_iff

/-- Witness for C8: one desired TXT record over an empty zone, with the
single add operation failing. -/
theorem setRecords_best_effort_witness :
    SetRecords (fun _ _ => (none, some (.remote 1))) [] [.txt (gs "h") 60 (gs "x")] =
      ((List.enumFrom 0 (reconcileOps [] [.txt (gs "h") 60 (gs "x")])).filterMap
          fun p => ((fun _ _ => ((none : Option LibdnsRecord),
            some (GoErr.remote 1))) p.1 p.2).1,
        (List.enumFrom 0 (reconcileOps [] [.txt (gs "h") 60 (gs "x")])).filterMap
          fun p => ((fun _ _ => ((none : Option LibdnsRecord),
            some (GoErr.remote 1))) p.1 p.2).2) ∧
    ((SetRecords (fun _ _ => (none, some (.remote 1))) []
        [.txt (gs "h") 60 (gs "x")]).2 = [] ↔
      ∀ p ∈ List.enumFrom 0 (reconcileOps [] [.txt (gs "h") 60 (gs "x")]),
        ((fun _ _ => ((none : Option LibdnsRecord),
          some (GoErr.remote 1))) p.1 p.2).2 = none) :=
  setRecords_best_effort (fun _ _ => (none, some (.remote 1))) []
    [.txt (gs "h") 60 (gs "x")]

/-! ### Delete matching (towards C9) -/

theorem matchDeleteTarget_iff (target matched : LibdnsRecord) :
    matchDeleteTarget target matched = true ↔
      ((target.RR.type_ ≠ [] → matched.RR.type_ = target.RR.type_) ∧
        (target.RR.ttl ≠ 0 → matched.RR.ttl = target.RR.ttl) ∧
        (target.RR.data ≠ [] → matched.RR.data = target.RR.data)) := by
  simp only [matchDeleteTarget]
  split_ifs with h1 h2 h3
  · constructor
    · intro h; simp at h
    · intro h; exact absurd (h.1 h1.1).symm h1.2
  · constructor
    · intro h; simp at h
    · intro h; exact absurd (h.2.1 h2.1).symm h2.2
  · constructor
    · intro h; simp at h
    · intro h; exact absurd (h.2.2 h3.1).symm h3.2
  · constructor
    · intro _
      push_neg at h1 h2 h3
      exact ⟨fun hne => (h1 hne).symm, fun hne => (h2 hne).symm,
        fun hne => (h3 hne).symm⟩
    · intro _; rfl

theorem deleteFromGroup_ok (t : LibdnsRecord) (ms : List ApiDnsRecord) :
    ∀ res, deleteFromGroup t ms = .ok res →
      res = ms.filterMap (fun m =>
        match m.toLibdnsRecord with
        | .ok ml => if matchDeleteTarget t ml then some ml else none
        | .error _ => none) := by
  induction ms with
  | nil => intro res h; simpa [deleteFromGroup] using h.symm
  | cons m ms ih =>
    intro res h
    simp only [deleteFromGroup] at h
    cases hc : m.toLibdnsRecord with
    | error e => rw [hc] at h; exact absurd h (by simp)
    | ok ml =>
      rw [hc] at h
      cases hrest : deleteFromGroup t ms with
      | error e => rw [hrest] at h; exact absurd h (by simp)
      | ok rest =>
        rw [hrest] at h
        have hres : res = if matchDeleteTarget t ml then ml :: rest else rest := by
          simpa using h.symm
        rw [hres, List.filterMap_cons, hc, ← ih rest hrest]
        split_ifs with hm <;> simp [hm]

theorem deleteRecordsGo_ok (keyed : List (nameAndType × List ApiDnsRecord))
    (targets : List LibdnsRecord) :
    ∀ res, deleteRecordsGo keyed targets = .ok res →
      res = targets.flatMap (fun t =>
        (lookupD keyed ⟨t.RR.name, t.RR.type_⟩).filterMap (fun m =>
          match m.toLibdnsRecord with
          | .ok ml => if matchDeleteTarget t ml then some ml else none
          | .error _ => none)) := by
  induction targets with
  | nil => intro res h; simpa [deleteRecordsGo] using h.symm
  | cons t ts ih =>
    intro res h
    simp only [deleteRecordsGo] at h
    cases hg : deleteFromGroup t (lookupD keyed ⟨t.RR.name, t.RR.type_⟩) with
    | error e => rw [hg] at h; exact absurd h (by simp)
    | ok ds =>
      rw [hg] at h
      cases hrest : deleteRecordsGo keyed ts with
      | error e => rw [hrest] at h; exact absurd h (by simp)
      | ok rest =>
        rw [hrest] at h
        have hres : res = ds ++ rest := by simpa using h.symm
        rw [hres, List.flatMap_cons, deleteFromGroup_ok t _ ds hg, ih rest hrest]

/-- C9: the delete-target match is the wildcard rule — each of type, TTL and
data constrains the candidate only when the target sets it — and a
successful `DeleteRecords` run deletes, for each target in order, every
matching candidate of the existing group at the target's `(name, type)`
key, not just the first. -/
theorem deleteRecords_wildcard (upstream : List ApiDnsRecord)
    (targets : List LibdnsRecord) (res : List LibdnsRecord)
    (hok : DeleteRecords upstream targets = .ok res) :
    (∀ target matched : LibdnsRecord,
      matchDeleteTarget target matched = true ↔
        ((target.RR.type_ ≠ [] → matched.RR.type_ = target.RR.type_) ∧
          (target.RR.ttl ≠ 0 → matched.RR.ttl = target.RR.ttl) ∧
          (target.RR.data ≠ [] → matched.RR.data = target.RR.data))) ∧
    res = targets.flatMap (candidateDeletes upstream) := by
  constructor
  · exact matchDeleteTarget_iff
  · exact deleteRecordsGo_ok (clouDNSRecordsToMap upstream) targets res hok

/-- Witness for C9: one generic TXT target (TTL 0, empty text) deletes both
concrete TXT records of its group. -/
theorem deleteRecords_wildcard_witness :
    (∀ target matched : LibdnsRecord,
      matchDeleteTarget target matched = true ↔
        ((target.RR.type_ ≠ [] → matched.RR.type_ = target.RR.type_) ∧
          (target.RR.ttl ≠ 0 → matched.RR.ttl = target.RR.ttl) ∧
          (target.RR.data ≠ [] → matched.RR.data = target.RR.data))) ∧
    [LibdnsRecord.txt (gs "w") 60 (gs "a"), LibdnsRecord.txt (gs "w") 60 (gs "b")] =
      [txtWildcardTarget].flatMap
        (candidateDeletes [txtCandidateOne, txtCandidateTwo]) :=
  deleteRecords_wildcard [txtCandidateOne, txtCandidateTwo] [txtWildcardTarget]
    [.txt (gs "w") 60 (gs "a"), .txt (gs "w") 60 (gs "b")] (by decide)

/-! ### Decode error analysis (towards C6) -/

theorem toLibdnsRecord_ttl_none (r : ApiDnsRecord) (h : goAtoi r.Ttl = none) :
    r.toLibdnsRecord = .error (.invalidTTL r.Ttl) := by
  simp only [ApiDnsRecord.toLibdnsRecord, h]

theorem toLibdnsRecord_some_not_ttl (r : ApiDnsRecord) (n : Int) (s : GoStr)
    (hA : goAtoi r.Ttl = some n) : r.toLibdnsRecord ≠ .error (.invalidTTL s) := by
  simp only [ApiDnsRecord.toLibdnsRecord, hA]
  split_ifs <;> first
    | (split <;> simp)
    | simp

theorem toLibdnsRecord_addr_branch (r : ApiDnsRecord) (n : Int)
    (hA : goAtoi r.Ttl = some n) (hT : r.Type_ = gs "A" ∨ r.Type_ = gs "AAAA") :
    r.toLibdnsRecord =
      (match parseAddr r.Record with
        | none => .error (.invalidIP r.Record)
        | some addr => .ok (.address r.Host n addr)) := by
  simp only [ApiDnsRecord.toLibdnsRecord, hA, if_pos hT]

theorem toLibdnsRecord_srv_branch (r : ApiDnsRecord) (n : Int)
    (hA : goAtoi r.Ttl = some n) (hT : r.Type_ = gs "SRV") :
    r.toLibdnsRecord =
      (match goSplitN3 r.Host with
        | [p0, p1, p2] =>
          .ok (.srv (trimUnderscore p0) (trimUnderscore p1) p2 n
            r.Priority r.Weight r.Port r.Record)
        | parts => .error (.srvBadName r.Host parts.length)) := by
  simp +decide only [ApiDnsRecord.toLibdnsRecord, hA, hT, if_true, if_false]

/-- C6 (amended): decoding fails with an invalid-TTL error carrying the
offending TTL string exactly when the TTL does not parse under Go
`strconv.Atoi` — which accepts signed integers, so a negative TTL string
decodes without error; an A/AAAA record whose data does not parse as an IP
literal fails with an address error carrying the data; an SRV host with
fewer than three dot-separated components fails with an error carrying the
host and the component count; the three literal cases of the repo's own
test behave as stated. -/
theorem toLibdnsRecord_error_cases (r : ApiDnsRecord) :
    ((∃ s, r.toLibdnsRecord = .error (.invalidTTL s)) ↔ goAtoi r.Ttl = none) ∧
    (∀ s, r.toLibdnsRecord = .error (.invalidTTL s) → s = r.Ttl) ∧
    (goAtoi r.Ttl ≠ none → (r.Type_ = gs "A" ∨ r.Type_ = gs "AAAA") →
      parseAddr r.Record = none → r.toLibdnsRecord = .error (.invalidIP r.Record)) ∧
    (goAtoi r.Ttl ≠ none → r.Type_ = gs "SRV" → (goSplitN3 r.Host).length < 3 →
      r.toLibdnsRecord = .error (.srvBadName r.Host (goSplitN3 r.Host).length)) ∧
    srvShortRec.toLibdnsRecord = .error (.srvBadName (gs "_http._tcp") 2) ∧
    ttlFooRec.toLibdnsRecord = .error (.invalidTTL (gs "foo")) ∧
    aaaaFooRec.toLibdnsRecord = .error (.invalidIP (gs "foo")) := by
  refine ⟨?_, ?_, ?_, ?_, by decide, by decide, by decide⟩
  · constructor
    · rintro ⟨s, hs⟩
      cases hA : goAtoi r.Ttl with
      | none => rfl
      | some n => exact absurd hs (toLibdnsRecord_some_not_ttl r n s hA)
    · intro hnone
      exact ⟨r.Ttl, toLibdnsRecord_ttl_none r hnone⟩
  · intro s hs
    cases hA : goAtoi r.Ttl with
    | none =>
      rw [toLibdnsRecord_ttl_none r hA] at hs
      simpa using hs.symm
    | some n => exact absurd hs (toLibdnsRecord_some_not_ttl r n s hA)
  · intro hne hT hp
    cases hA : goAtoi r.Ttl with
    | none => exact absurd hA hne
    | some n => rw [toLibdnsRecord_addr_branch r n hA hT, hp]
  · intro hne hT hlen
    cases hA : goAtoi r.Ttl with
    | none => exact absurd hA hne
    | some n =>
      rw [toLibdnsRecord_srv_branch r n hA hT]
      split
      · rename_i p0 p1 p2 heq
        rw [heq] at hlen
        simp at hlen
      · rfl

/-- Witness for C6 at the AAAA record with unparseable data, through the
general address-error clause. -/
theorem toLibdnsRecord_error_cases_witness :
    aaaaFooRec.toLibdnsRecord = .error (.invalidIP (gs "foo")) :=
  (toLibdnsRecord_error_cases aaaaFooRec).2.2.1 (by decide) (by decide) (by decide)

/-- C6 counterexample to the claim as stated: the TTL string `"-5"` is not
a non-negative count of seconds, yet decoding succeeds (Go `strconv.Atoi`
parses it to the negative integer -5), so the claimed
"fails exactly when the TTL is not a non-negative integer" is false. -/
theorem toLibdnsRecord_accepts_negative_ttl :
    goAtoi (gs "-5") = some (-5) ∧
      negTtlRec.toLibdnsRecord = .ok (.txt (gs "t") (-5) (gs "v")) := by decide

/-! ### Codec round trip (towards C4) -/

theorem ttl_canonical_roundtrip (s : GoStr) (h : isCanonicalTtl s = true) :
    ∃ n, goAtoi s = some n ∧ goItoa (ttlRounder n) = s := by
  have hmem : s ∈ ttlStrings := of_decide_eq_true h
  have hall : ∀ x ∈ ttlStrings,
      (match goAtoi x with
        | some n => decide (goItoa (ttlRounder n) = x)
        | none => false) = true := by decide
  have hs := hall s hmem
  cases hA : goAtoi s with
  | none => rw [hA] at hs; simp at hs
  | some n => rw [hA] at hs; exact ⟨n, rfl, of_decide_eq_true hs⟩

theorem splitDots_ne_nil (s : GoStr) : splitDots s ≠ [] := by
  cases s with
  | nil => simp [splitDots]
  | cons c rest =>
    simp only [splitDots]
    split_ifs
    · simp
    · split <;> simp

theorem joinDots_splitDots (s : GoStr) : joinDots (splitDots s) = s := by
  induction s with
  | nil => rfl
  | cons c rest ih =>
    simp only [splitDots]
    split_ifs with hc
    · obtain ⟨g, groups, hg⟩ : ∃ g groups, splitDots rest = g :: groups := by
        cases hr : splitDots rest with
        | nil => exact absurd hr (splitDots_ne_nil rest)
        | cons g groups => exact ⟨g, groups, rfl⟩
      rw [hg]
      rw [hg] at ih
      show '.' :: joinDots (g :: groups) = c :: rest
      rw [ih, hc]
    · obtain ⟨g, groups, hg⟩ : ∃ g groups, splitDots rest = g :: groups := by
        cases hr : splitDots rest with
        | nil => exact absurd hr (splitDots_ne_nil rest)
        | cons g groups => exact ⟨g, groups, rfl⟩
      rw [hg]
      rw [hg] at ih
      cases groups with
      | nil =>
        show c :: g = c :: rest
        rw [show joinDots [g] = g from rfl] at ih
        rw [ih]
      | cons g2 gs2 =>
        show (c :: g) ++ '.' :: joinDots (g2 :: gs2) = c :: rest
        rw [show joinDots (g :: g2 :: gs2) = g ++ '.' :: joinDots (g2 :: gs2) from rfl]
          at ih
        simp only [List.cons_append]
        rw [ih]

theorem goSplitN3_decomp (s a b c : GoStr) (h : goSplitN3 s = [a, b, c]) :
    s = a ++ '.' :: b ++ '.' :: c := by
  have hj := joinDots_splitDots s
  unfold goSplitN3 at h
  cases hs : splitDots s with
  | nil => rw [hs] at h; simp at h
  | cons a0 t0 =>
    cases t0 with
    | nil => rw [hs] at h; simp at h
    | cons b0 t1 =>
      cases t1 with
      | nil => rw [hs] at h; simp at h
      | cons c0 rest =>
        rw [hs] at h hj
        dsimp only at h
        split_ifs at h with hrest
        · obtain ⟨ha, hb, hc⟩ : a0 = a ∧ b0 = b ∧ c0 = c := by
            simpa using h
          subst hrest
          rw [← hj, ← ha, ← hb, ← hc]
          simp [joinDots]
        · obtain ⟨ha, hb, hc⟩ : a0 = a ∧ b0 = b ∧ joinDots (c0 :: rest) = c := by
            simpa using h
          rw [← hj, ← ha, ← hb, ← hc]
          simp [joinDots]

theorem toLibdnsRecord_caa_branch (r : ApiDnsRecord) (n : Int)
    (hA : goAtoi r.Ttl = some n) (hT : r.Type_ = gs "CAA") :
    r.toLibdnsRecord = .ok (.caa r.Host n r.CAAFlag r.CAAType r.CAAValue) := by
  simp +decide only [ApiDnsRecord.toLibdnsRecord, hA, hT, if_true, if_false]

theorem toLibdnsRecord_cname_branch (r : ApiDnsRecord) (n : Int)
    (hA : goAtoi r.Ttl = some n) (hT : r.Type_ = gs "CNAME") :
    r.toLibdnsRecord = .ok (.cname r.Host n r.Record) := by
  simp +decide only [ApiDnsRecord.toLibdnsRecord, hA, hT, if_true, if_false]

theorem toLibdnsRecord_mx_branch (r : ApiDnsRecord) (n : Int)
    (hA : goAtoi r.Ttl = some n) (hT : r.Type_ = gs "MX") :
    r.toLibdnsRecord = .ok (.mx r.Host n r.Priority r.Record) := by
  simp +decide only [ApiDnsRecord.toLibdnsRecord, hA, hT, if_true, if_false]

theorem toLibdnsRecord_ns_branch (r : ApiDnsRecord) (n : Int)
    (hA : goAtoi r.Ttl = some n) (hT : r.Type_ = gs "NS") :
    r.toLibdnsRecord = .ok (.ns r.Host n r.Record) := by
  simp +decide only [ApiDnsRecord.toLibdnsRecord, hA, hT, if_true, if_false]

theorem toLibdnsRecord_txt_branch (r : ApiDnsRecord) (n : Int)
    (hA : goAtoi r.Ttl = some n) (hT : r.Type_ = gs "TXT") :
    r.toLibdnsRecord = .ok (.txt r.Host n r.Record) := by
  simp +decide only [ApiDnsRecord.toLibdnsRecord, hA, hT, if_true, if_false]

theorem toLibdnsRecord_default_branch (r : ApiDnsRecord) (n : Int)
    (hA : goAtoi r.Ttl = some n)
    (h1 : ¬r.Type_ = gs "A") (h2 : ¬r.Type_ = gs "AAAA") (h3 : ¬r.Type_ = gs "CAA")
    (h4 : ¬r.Type_ = gs "CNAME") (h5 : ¬r.Type_ = gs "MX") (h6 : ¬r.Type_ = gs "NS")
    (h7 : ¬r.Type_ = gs "SRV") (h8 : ¬r.Type_ = gs "TXT") :
    r.toLibdnsRecord = .ok (.plain ⟨r.Host, n, r.Type_, r.Record⟩) := by
  simp only [ApiDnsRecord.toLibdnsRecord, hA]
  rw [if_neg (not_or.mpr ⟨h1, h2⟩), if_neg h3, if_neg h4, if_neg h5, if_neg h6,
    if_neg h7, if_neg h8]

/-- C4: decoding a canonical-form flat record and re-encoding it with its
own identifier reproduces the record byte for byte, across every supported
variant (A, AAAA, CAA, CNAME, MX, NS, SRV, TXT and the raw fallback). -/
theorem codec_roundtrip (r : ApiDnsRecord) (h : isCanonical r = true) :
    (r.toLibdnsRecord).map (fun g => fromLibdnsRecord g r.Id) = .ok r := by
  obtain ⟨Id, Type_, Host, Record, Failover, Ttl, CAAFlag, CAAType, CAAValue,
    Priority, Port, Weight, Status⟩ := r
  simp only [isCanonical, Bool.and_eq_true, decide_eq_true_eq] at h
  obtain ⟨⟨hTtl, hFail, hStat⟩, hbr⟩ := h
  obtain ⟨n, hAto, hIt⟩ := ttl_canonical_roundtrip Ttl hTtl
  subst hFail; subst hStat
  by_cases h1 : Type_ = gs "A"
  · rw [if_pos h1] at hbr
    simp only [Bool.and_eq_true, decide_eq_true_eq] at hbr
    obtain ⟨hAddr, hcf, hct, hcv, hp, hpo, hw⟩ := hbr
    subst hcf; subst hct; subst hcv; subst hp; subst hpo; subst hw
    rw [isCanonicalAddr] at hAddr
    cases hip : parseAddr Record with
    | none => rw [hip] at hAddr; simp at hAddr
    | some a =>
      rw [hip] at hAddr
      simp only [decide_eq_true_eq] at hAddr
      obtain ⟨hPrint, hIs4⟩ := hAddr
      rw [toLibdnsRecord_addr_branch _ n hAto (Or.inl h1), hip]
      simp only [Except.map, fromLibdnsRecord, LibdnsRecord.RR, hIs4, if_true]
      rw [hIt, hPrint, h1]
  · by_cases h2 : Type_ = gs "AAAA"
    · rw [if_neg h1, if_pos h2] at hbr
      simp only [Bool.and_eq_true, decide_eq_true_eq] at hbr
      obtain ⟨hAddr, hcf, hct, hcv, hp, hpo, hw⟩ := hbr
      subst hcf; subst hct; subst hcv; subst hp; subst hpo; subst hw
      rw [isCanonicalAddr] at hAddr
      cases hip : parseAddr Record with
      | none => rw [hip] at hAddr; simp at hAddr
      | some a =>
        rw [hip] at hAddr
        simp only [decide_eq_true_eq] at hAddr
        obtain ⟨hPrint, hIs4⟩ := hAddr
        rw [toLibdnsRecord_addr_branch _ n hAto (Or.inr h2), hip]
        simp only [Except.map, fromLibdnsRecord, LibdnsRecord.RR, hIs4,
          Bool.false_eq_true, if_false]
        rw [hIt, hPrint, h2]
    · by_cases h3 : Type_ = gs "CAA"
      · rw [if_neg h1, if_neg h2, if_pos h3] at hbr
        simp only [decide_eq_true_eq] at hbr
        obtain ⟨hrec, hp, hpo, hw⟩ := hbr
        subst hrec; subst hp; subst hpo; subst hw
        rw [toLibdnsRecord_caa_branch _ n hAto h3]
        simp only [Except.map, fromLibdnsRecord, LibdnsRecord.RR]
        rw [hIt, h3]
      · by_cases h4 : Type_ = gs "CNAME"
        · rw [if_neg h1, if_neg h2, if_neg h3, if_pos (Or.inl h4)] at hbr
          simp only [decide_eq_true_eq] at hbr
          obtain ⟨hcf, hct, hcv, hp, hpo, hw⟩ := hbr
          subst hcf; subst hct; subst hcv; subst hp; subst hpo; subst hw
          rw [toLibdnsRecord_cname_branch _ n hAto h4]
          simp only [Except.map, fromLibdnsRecord, LibdnsRecord.RR]
          rw [hIt, h4]
        · by_cases h6 : Type_ = gs "NS"
          · rw [if_neg h1, if_neg h2, if_neg h3, if_pos (Or.inr (Or.inl h6))] at hbr
            simp only [decide_eq_true_eq] at hbr
            obtain ⟨hcf, hct, hcv, hp, hpo, hw⟩ := hbr
            subst hcf; subst hct; subst hcv; subst hp; subst hpo; subst hw
            rw [toLibdnsRecord_ns_branch _ n hAto h6]
            simp only [Except.map, fromLibdnsRecord, LibdnsRecord.RR]
            rw [hIt, h6]
          · by_cases h8 : Type_ = gs "TXT"
            · rw [if_neg h1, if_neg h2, if_neg h3,
                if_pos (Or.inr (Or.inr h8))] at hbr
              simp only [decide_eq_true_eq] at hbr
              obtain ⟨hcf, hct, hcv, hp, hpo, hw⟩ := hbr
              subst hcf; subst hct; subst hcv; subst hp; subst hpo; subst hw
              rw [toLibdnsRecord_txt_branch _ n hAto h8]
              simp only [Except.map, fromLibdnsRecord, LibdnsRecord.RR]
              rw [hIt, h8]
            · by_cases h5 : Type_ = gs "MX"
              · rw [if_neg h1, if_neg h2, if_neg h3,
                  if_neg (not_or.mpr ⟨h4, not_or.mpr ⟨h6, h8⟩⟩),
                  if_pos h5] at hbr
                simp only [decide_eq_true_eq] at hbr
                obtain ⟨hcf, hct, hcv, hpo, hw⟩ := hbr
                subst hcf; subst hct; subst hcv; subst hpo; subst hw
                rw [toLibdnsRecord_mx_branch _ n hAto h5]
                simp only [Except.map, fromLibdnsRecord, LibdnsRecord.RR]
                rw [hIt, h5]
              · by_cases h7 : Type_ = gs "SRV"
                · rw [if_neg h1, if_neg h2, if_neg h3,
                    if_neg (not_or.mpr ⟨h4, not_or.mpr ⟨h6, h8⟩⟩),
                    if_neg h5, if_pos h7] at hbr
                  simp only [Bool.and_eq_true, decide_eq_true_eq] at hbr
                  obtain ⟨hsplit, hcf, hct, hcv⟩ := hbr
                  subst hcf; subst hct; subst hcv
                  cases hG : goSplitN3 Host with
                  | nil => rw [hG] at hsplit; simp at hsplit
                  | cons p0 t0 =>
                    cases t0 with
                    | nil => rw [hG] at hsplit; simp at hsplit
                    | cons p1 t1 =>
                      cases t1 with
                      | nil => rw [hG] at hsplit; simp at hsplit
                      | cons p2 t2 =>
                        cases t2 with
                        | cons p3 t3 => rw [hG] at hsplit; simp at hsplit
                        | nil =>
                          rw [hG] at hsplit
                          simp only [decide_eq_true_eq] at hsplit
                          obtain ⟨hh0, hh1⟩ := hsplit
                          obtain ⟨r0, rfl⟩ : ∃ r0, p0 = '_' :: r0 := by
                            cases p0 with
                            | nil => simp at hh0
                            | cons c cs =>
                              have hc : c = '_' := by simpa using hh0
                              exact ⟨cs, by rw [hc]⟩
                          obtain ⟨r1, rfl⟩ : ∃ r1, p1 = '_' :: r1 := by
                            cases p1 with
                            | nil => simp at hh1
                            | cons c cs =>
                              have hc : c = '_' := by simpa using hh1
                              exact ⟨cs, by rw [hc]⟩
                          have hhost := goSplitN3_decomp Host _ _ _ hG
                          rw [toLibdnsRecord_srv_branch _ n hAto h7, hG]
                          simp only [Except.map, fromLibdnsRecord, LibdnsRecord.RR,
                            trimUnderscore]
                          rw [hIt, h7, ← hhost]
                · rw [if_neg h1, if_neg h2, if_neg h3,
                    if_neg (not_or.mpr ⟨h4, not_or.mpr ⟨h6, h8⟩⟩),
                    if_neg h5, if_neg h7] at hbr
                  simp only [decide_eq_true_eq] at hbr
                  obtain ⟨hcf, hct, hcv, hp, hpo, hw⟩ := hbr
                  subst hcf; subst hct; subst hcv; subst hp; subst hpo; subst hw
                  rw [toLibdnsRecord_default_branch _ n hAto h1 h2 h3 h4 h5 h6 h7 h8]
                  simp only [Except.map, fromLibdnsRecord, LibdnsRecord.RR]
                  rw [hIt]

/-- Witness for C4 at the SRV record of the repo's round-trip test. -/
theorem codec_roundtrip_witness :
    isCanonical srvCanonicalRec = true ∧
      (srvCanonicalRec.toLibdnsRecord).map
        (fun g => fromLibdnsRecord g srvCanonicalRec.Id) = .ok srvCanonicalRec :=
  ⟨by decide, codec_roundtrip srvCanonicalRec (by decide)⟩

end Cloudns
